import Mathlib

set_option maxRecDepth 20000

/-!
Verification development for the pptgen-temporal durable conversation
orchestrator.  The definitions below are a shallow embedding of the Python
source: the tool activities and the memory snapshot builder from
`activities.py`, and the Temporal workflow `PPTAgentWorkflow` from
`BaseAgentWorkflow.py` (signal handler `user_input`, query
`get_conversation_history`, and the `run` loop), with the external
collaborators (python-pptx / openpyxl / pandas reads, `exec` of
reasoner-authored code, and the LLM call) modelled as explicit environment
parameters.  Stateful workflow execution is modelled as a step function on a
configuration whose program counter ranges over the workflow's await points;
a signal delivery may be interleaved at any suspension point, matching
Temporal's signal semantics.
-/

/-- Roles carried by conversation turns (the `"role"` field of the message
dicts built in `BaseAgentWorkflow.py`). -/
inductive Role where
  | system
  | user
  | assistant
  | tool
deriving DecidableEq

/-- Parsed JSON argument map of one tool call (the result of
`json.loads(tool_call["function"]["arguments"])`); absent keys are `none`
and reading an absent required key raises `KeyError` in the dispatcher. -/
structure ToolArgs where
  file_path : Option String := none
  slide_index : Option Int := none
  sheet_name : Option String := none
  code : Option String := none
deriving DecidableEq

/-- One tool invocation request emitted by the reasoner
(`tool_call["id"]`, `tool_call["function"]["name"]`, parsed arguments). -/
structure ToolCall where
  id : String
  name : String
  args : ToolArgs
deriving DecidableEq

/-- One entry of the conversation log.  Assistant turns carry `tool_calls`;
tool turns carry `tool_call_id` (the back-reference) and `name`. -/
structure Turn where
  role : Role
  content : String
  tool_calls : List ToolCall := []
  tool_call_id : String := ""
  name : String := ""
deriving DecidableEq

/-- The normalized reply of the external reasoning engine
(`call_llm` returns `{"content": ..., "tool_calls": ...}`; a `None`
tool-call field is modelled as the empty list, matching Python truthiness
in `if assistant_message["tool_calls"]:`). -/
structure AssistantMsg where
  content : String
  tool_calls : List ToolCall
deriving DecidableEq

/-- A user-input signal payload `{query, pptx_files, excel_files}`; the
defaults model `input_data.get(..., ...)` for malformed payloads. -/
structure Signal where
  query : String := ""
  pptx_files : List String := []
  excel_files : List String := []
deriving DecidableEq

/-- A shape on a slide, as far as `create_slide_xml` inspects it: its type
name, an optional text frame (list of paragraph texts) and an optional
table (rows of cell texts). -/
structure Shape where
  shapeType : String
  text_frame : Option (List String) := none
  table : Option (List (List String)) := none
deriving DecidableEq

/-- A slide: an ordered list of shapes. -/
structure Slide where
  shapes : List Shape
deriving DecidableEq

/-- A PowerPoint document: its ordered slides. -/
structure PptxFile where
  slides : List Slide
deriving DecidableEq

/-- An Excel sheet's data, as held in a pandas DataFrame. -/
structure Df where
  rows : List (List String)
deriving DecidableEq

/-- An Excel workbook: ordered named sheets. -/
structure Workbook where
  sheets : List (String × Df)
deriving DecidableEq

/-- The document filesystem.  `pptx p` models `Presentation(p)` and
`xlsx p` models `load_workbook(p)` / `pd.read_excel(p, ...)`: either the
parsed document or the message of the exception the library raises. -/
structure FS where
  pptx : String → Except String PptxFile
  xlsx : String → Except String Workbook

/-- Behaviour of the opaque external calls: `exec` of reasoner-authored
code against a slide (`execSlideCode code prs i` returns the post-mutation
presentation together with the post-mutation slide object, or the raised
exception's message), `exec` against a DataFrame, and pandas
`to_markdown`. -/
structure Env where
  execSlideCode : String → PptxFile → Nat → Except String (PptxFile × Slide)
  execDfCode : String → Df → Except String Df
  dfMarkdown : Df → String

/-- Characters of the final path component: scan the characters, restarting
the accumulator after every separator. -/
def basenameChars : List Char → List Char → List Char
  | [], acc => acc.reverse
  | c :: rest, acc => if c = '/' then basenameChars rest [] else basenameChars rest (c :: acc)

/-- `os.path.basename` for POSIX paths: everything after the last `/`. -/
def basename (p : String) : String := ⟨basenameChars p.data []⟩

/-- Python dict assignment `m[k] = v` on an insertion-ordered association
list: replace the value in place if the key exists, else append. -/
def dictSet (m : List (String × α)) (k : String) (v : α) : List (String × α) :=
  match m with
  | [] => [(k, v)]
  | (k2, v2) :: rest => if k2 = k then (k2, v) :: rest else (k2, v2) :: dictSet rest k v

/-- Python dict lookup `m[k]` (first matching key). -/
def dictGet (m : List (String × α)) (k : String) : Option α :=
  match m with
  | [] => none
  | (k2, v) :: rest => if k2 = k then some v else dictGet rest k

/-- `create_file_path_mapping` (`temporal_agent.py`; built identically by
the dict comprehension in `BaseAgentWorkflow.user_input`):
basename-to-full-path over `pptx_files + excel_files`, later paths
overwriting earlier ones. -/
def create_file_path_mapping (pptx_files excel_files : List String) : List (String × String) :=
  (pptx_files ++ excel_files).foldl (fun m f => dictSet m (basename f) f) []

/-- Text-frame fragment of `create_slide_xml`. -/
def textFrameXml : Option (List String) → String
  | none => ""
  | some paras =>
      "      <text_frame>\n"
        ++ String.join (paras.map (fun p => "        <paragraph>" ++ p ++ "</paragraph>\n"))
        ++ "      </text_frame>\n"

/-- Table fragment of `create_slide_xml`. -/
def tableXml : Option (List (List String)) → String
  | none => ""
  | some rows =>
      "      <table>\n"
        ++ String.join (rows.map (fun row =>
            "        <row>\n"
              ++ String.join (row.map (fun cell => "          <cell>" ++ cell ++ "</cell>\n"))
              ++ "        </row>\n"))
        ++ "      </table>\n"

/-- One shape's fragment of `create_slide_xml` (`i` is the enumerate index). -/
def shapeXml (i : Nat) (sh : Shape) : String :=
  "    <shape id=\x27" ++ toString i ++ "\x27 type=\x27" ++ sh.shapeType ++ "\x27>\n"
    ++ textFrameXml sh.text_frame
    ++ tableXml sh.table
    ++ "    </shape>\n"

/-- `create_slide_xml` helper from `activities.py`. -/
def create_slide_xml (sl : Slide) : String :=
  "<slide>\n" ++ "  <shapes>\n"
    ++ String.join (sl.shapes.enum.map (fun e => shapeXml e.1 e.2))
    ++ "  </shapes>\n" ++ "</slide>"

/-- `get_slide_xml` activity (`activities.py`): open the presentation,
return the slide's XML when `0 <= slide_index < len(prs.slides)`, the
out-of-range error string otherwise, and `"Error: <msg>"` when opening the
file raises. -/
def get_slide_xml (fs : FS) (file_path : String) (slide_index : Int) : String :=
  match fs.pptx file_path with
  | .error e => "Error: " ++ e
  | .ok prs =>
      if h : 0 ≤ slide_index ∧ slide_index < (prs.slides.length : Int) then
        create_slide_xml (prs.slides.get ⟨slide_index.toNat, by omega⟩)
      else
        "Error: Slide index " ++ toString slide_index ++ " out of range."

/-- `pd.read_excel(file_path, sheet_name=...)`: the sheet's DataFrame, or
the library exception's message. -/
def findSheet (wb : Workbook) (sheet_name : String) : Option Df :=
  dictGet wb.sheets sheet_name

/-- `get_excel_table` activity (`activities.py`). -/
def get_excel_table (env : Env) (fs : FS) (file_path sheet_name : String) : String :=
  match fs.xlsx file_path with
  | .error e => "Error: " ++ e
  | .ok wb =>
      match findSheet wb sheet_name with
      | some df => env.dfMarkdown df
      | none => "Error: Worksheet named \x27" ++ sheet_name ++ "\x27 not found"

/-- Suffix appended to every error string of the two mutating tools:
`f"\n\nCode attempted to execute:\n{code}"`. -/
def codeTail (code : String) : String := "\n\nCode attempted to execute:\n" ++ code

/-- `prs.save(file_path)`: overwrite the presentation at `file_path`. -/
def FS.savePptx (fs : FS) (file_path : String) (prs : PptxFile) : FS :=
  { fs with pptx := fun p => if p = file_path then .ok prs else fs.pptx p }

/-- `ExcelWriter(...).to_excel(...)`: overwrite the workbook at `file_path`. -/
def FS.saveXlsx (fs : FS) (file_path : String) (wb : Workbook) : FS :=
  { fs with xlsx := fun p => if p = file_path then .ok wb else fs.xlsx p }

/-- `modify_slide` activity (`activities.py`): open, check the index,
`exec` the code payload against the slide, save, and return the mutated
slide's XML; each failure path returns the formatted error string and, for
failures before `prs.save`, leaves the filesystem untouched. -/
def modify_slide (env : Env) (fs : FS) (file_path : String) (slide_index : Int)
    (code : String) : String × FS :=
  match fs.pptx file_path with
  | .error e => ("Error: " ++ e ++ codeTail code, fs)
  | .ok prs =>
      if 0 ≤ slide_index ∧ slide_index < (prs.slides.length : Int) then
        match env.execSlideCode code prs slide_index.toNat with
        | .error e => ("Error: " ++ e ++ codeTail code, fs)
        | .ok (prs2, sl) => (create_slide_xml sl, fs.savePptx file_path prs2)
      else
        ("Error: Slide index " ++ toString slide_index ++ " out of range.", fs)

/-- `mode='a', if_sheet_exists='replace'` write of one sheet. -/
def writeSheetReplace (wb : Workbook) (sheet_name : String) (df : Df) : Workbook :=
  if (wb.sheets.map Prod.fst).contains sheet_name then
    ⟨wb.sheets.map (fun p => if p.1 = sheet_name then (sheet_name, df) else p)⟩
  else
    ⟨wb.sheets ++ [(sheet_name, df)]⟩

/-- `modify_excel` activity (`activities.py`). -/
def modify_excel (env : Env) (fs : FS) (file_path sheet_name code : String) : String × FS :=
  match fs.xlsx file_path with
  | .error e => ("Error: " ++ e ++ codeTail code, fs)
  | .ok wb =>
      match findSheet wb sheet_name with
      | none => ("Error: Worksheet named \x27" ++ sheet_name ++ "\x27 not found" ++ codeTail code, fs)
      | some df =>
          match env.execDfCode code df with
          | .error e => ("Error: " ++ e ++ codeTail code, fs)
          | .ok df2 => (env.dfMarkdown df2, fs.saveXlsx file_path (writeSheetReplace wb sheet_name df2))

/-- The memory snapshot: the inner dict of the `{"Memory": {...}}`
structure returned by `create_memory_snapshot`. -/
structure Memory where
  entries : List (String × List String)
deriving DecidableEq

/-- The per-pptx-document snapshot entry value: `["Slide 1", ..]` for a
readable deck, the single error placeholder otherwise. -/
def pptxEntry (fs : FS) (file_path : String) : List String :=
  match fs.pptx file_path with
  | .ok prs => (List.range prs.slides.length).map (fun i => "Slide " ++ toString (i + 1))
  | .error e => ["Error: " ++ e]

/-- The per-Excel-document snapshot entry value: the ordered sheet names
for a readable workbook, the single error placeholder otherwise. -/
def excelEntry (fs : FS) (file_path : String) : List String :=
  match fs.xlsx file_path with
  | .ok wb => wb.sheets.map Prod.fst
  | .error e => ["Error: " ++ e]

/-- `create_memory_snapshot` activity (`activities.py`): pptx files first,
then Excel files, each assigned under its basename with Python dict
assignment semantics. -/
def create_memory_snapshot (fs : FS) (pptx_files excel_files : List String) : Memory :=
  ⟨excel_files.foldl (fun m f => dictSet m (basename f) (excelEntry fs f))
    (pptx_files.foldl (fun m f => dictSet m (basename f) (pptxEntry fs f)) [])⟩

/-- `execute_tool` activity (`activities.py`): dispatch on the tool name
over the fixed four-entry catalog; a missing required argument raises
`KeyError` (the `.error` case); an unknown name returns the literal
`"Unknown tool: <name>"` string without raising. -/
def execute_tool (env : Env) (fs : FS) (tool_name : String) (tool_args : ToolArgs) :
    Except String (String × FS) :=
  if tool_name = "get_slide" then
    match tool_args.file_path, tool_args.slide_index with
    | some fp, some idx => .ok (get_slide_xml fs fp idx, fs)
    | _, _ => .error "KeyError"
  else if tool_name = "get_excel_data" then
    match tool_args.file_path, tool_args.sheet_name with
    | some fp, some sn => .ok (get_excel_table env fs fp sn, fs)
    | _, _ => .error "KeyError"
  else if tool_name = "modify_slide" then
    match tool_args.file_path, tool_args.slide_index, tool_args.code with
    | some fp, some idx, some code => .ok (modify_slide env fs fp idx code)
    | _, _, _ => .error "KeyError"
  else if tool_name = "modify_excel" then
    match tool_args.file_path, tool_args.sheet_name, tool_args.code with
    | some fp, some sn, some code => .ok (modify_excel env fs fp sn code)
    | _, _, _ => .error "KeyError"
  else
    .ok ("Unknown tool: " ++ tool_name, fs)

/-- `",\n".join(...)`-style separator join used by the JSON renderers. -/
def joinSep (sep : String) : List String → String
  | [] => ""
  | [x] => x
  | x :: y :: rest => x ++ sep ++ joinSep sep (y :: rest)

/-- Lowercase hexadecimal digit, as used by `json.dumps` unicode escapes. -/
def hexDigit (n : Nat) : Char :=
  if n < 10 then Char.ofNat (48 + n) else Char.ofNat (87 + n)

/-- Four lowercase hex digits, the `XXXX` of a `\uXXXX` escape. -/
def hex4 (n : Nat) : List Char :=
  [hexDigit (n / 4096 % 16), hexDigit (n / 256 % 16), hexDigit (n / 16 % 16), hexDigit (n % 16)]

/-- Escaping of one character by `json.dumps` with its default
`ensure_ascii=True` (CPython's `py_encode_basestring_ascii`): backslash and
double quote get a backslash escape; printable ASCII (0x20..0x7e) passes
through; backspace, tab, newline, form feed and carriage return get their
short escapes; every other character — all remaining control characters
and every non-ASCII character — becomes `\uXXXX`, with a surrogate pair
for code points above 0xFFFF. -/
def escapeChar (c : Char) : List Char :=
  if c = '\\' then ['\\', '\\']
  else if c = '"' then ['\\', '"']
  else if 0x20 ≤ c.toNat ∧ c.toNat ≤ 0x7e then [c]
  else if c = '\x08' then ['\\', 'b']
  else if c = '\t' then ['\\', 't']
  else if c = '\n' then ['\\', 'n']
  else if c = '\x0c' then ['\\', 'f']
  else if c = '\r' then ['\\', 'r']
  else if c.toNat < 0x10000 then '\\' :: 'u' :: hex4 c.toNat
  else
    ('\\' :: 'u' :: hex4 (0xd800 + (c.toNat - 0x10000) / 0x400))
      ++ ('\\' :: 'u' :: hex4 (0xdc00 + (c.toNat - 0x10000) % 0x400))

/-- `json.dumps` escaping of a whole string. -/
def jsonEscape (s : String) : String := ⟨(s.data.map escapeChar).flatten⟩

/-- JSON rendering of a string by `json.dumps`: the escaped characters
between double quotes. -/
def jsonQuote (s : String) : String := "\"" ++ jsonEscape s ++ "\""

/-- `json.dumps(list, indent=2)` at nesting depth given by `pad`. -/
def renderStrList (pad : String) : List String → String
  | [] => "[]"
  | xs => "[\n" ++ joinSep ",\n" (xs.map (fun x => pad ++ "  " ++ jsonQuote x)) ++ "\n" ++ pad ++ "]"

/-- The inner-dict part of `json.dumps(memory, indent=2)`. -/
def renderMemoryEntries : List (String × List String) → String
  | [] => "\x7b\x7d"
  | es => "\x7b\n"
      ++ joinSep ",\n" (es.map (fun e => "    " ++ jsonQuote e.1 ++ ": " ++ renderStrList "    " e.2))
      ++ "\n  \x7d"

/-- `json.dumps({"Memory": {...}}, indent=2)`, the `memory_str` built in
`BaseAgentWorkflow.run`. -/
def renderMemory (m : Memory) : String :=
  "\x7b\n  " ++ jsonQuote "Memory" ++ ": " ++ renderMemoryEntries m.entries ++ "\n\x7d"

/-- `json.dumps(file_path_mapping, indent=2)`, the `file_mapping_str`. -/
def renderMapping : List (String × String) → String
  | [] => "\x7b\x7d"
  | es => "\x7b\n"
      ++ joinSep ",\n" (es.map (fun e => "  " ++ jsonQuote e.1 ++ ": " ++ jsonQuote e.2))
      ++ "\n\x7d"

/-- The system-turn content rebuilt on every context refresh
(`self.messages[0]["content"] = f"""..."""` in `BaseAgentWorkflow.run`). -/
def systemContent (mem : Memory) (mapping : List (String × String)) : String :=
  "You are an AI PowerPoint and Excel agent. You can view and modify PowerPoint slides and Excel sheets.\n\nAvailable files:\n"
    ++ renderMemory mem
    ++ "\n\nFile paths:\n"
    ++ renderMapping mapping
    ++ "\n\nYou have access to tools to:\n1. View slide content (get_slide)\n2. View Excel data (get_excel_data)\n3. Modify slides (modify_slide)\n4. Modify Excel sheets (modify_excel)\n\nAlways examine file content before making modifications."

/-- Program counter of `BaseAgentWorkflow.run`, one value per await point:
waiting at `workflow.wait_condition` (`idle`), awaiting the
`create_memory_snapshot` activity with its captured arguments
(`snapshotting`), awaiting `call_llm` (`callingLLM`), and awaiting
`execute_tool` for the head of the remaining tool calls of the current
assistant turn (`dispatching`). -/
inductive PC where
  | idle
  | snapshotting (pptx_args excel_args : List String)
  | callingLLM
  | dispatching (pending : List ToolCall)
deriving DecidableEq

/-- Workflow instance state: the fields of `PPTAgentWorkflow` that the
`run` loop, the `user_input` signal handler and the
`get_conversation_history` query touch, plus the document filesystem and
the program counter. -/
structure Config where
  messages : List Turn
  pptx_files : List String
  excel_files : List String
  file_path_mapping : List (String × String)
  memory : Memory
  user_input_received : Bool
  user_query : String
  fs : FS
  pc : PC

/-- The tool turn appended after one `execute_tool` call:
`{"role": "tool", "tool_call_id": ..., "name": ..., "content": str(...)}`. -/
def mkToolTurn (tc : ToolCall) (result : String) : Turn :=
  { role := .tool, content := result, tool_call_id := tc.id, name := tc.name }

/-- One step of `BaseAgentWorkflow.run`: the atomic code segment between
two consecutive await points.  From `idle` with the input flag set, reset
the flag and start the snapshot activity (capturing the current file
lists); when the snapshot activity completes, store the memory, rewrite
turn 0 from the fresh snapshot and current mapping, append the user turn
and start `call_llm`; when `call_llm` completes, append the assistant turn
and either return to waiting (no tool calls) or start dispatching them in
order; when `execute_tool` completes, append the tool turn and start the
next tool call or return to `call_llm`.  A failing `execute_tool`
(`KeyError`) leaves the workflow at the same await point (the durable
substrate retries the activity).  Note that this `run` never refreshes the
snapshot inside the dispatch loop. -/
def stepW (env : Env) (llm : List Turn → AssistantMsg) (c : Config) : Config :=
  match c.pc with
  | .idle =>
      if c.user_input_received then
        { c with user_input_received := false, pc := .snapshotting c.pptx_files c.excel_files }
      else c
  | .snapshotting px ex =>
      let mem := create_memory_snapshot c.fs px ex
      let sys := systemContent mem c.file_path_mapping
      { c with
          memory := mem,
          messages := (c.messages.modifyHead (fun t => { t with content := sys }))
                        ++ [{ role := .user, content := c.user_query }],
          pc := .callingLLM }
  | .callingLLM =>
      let am := llm c.messages
      { c with
          messages := c.messages ++ [{ role := .assistant, content := am.content, tool_calls := am.tool_calls }],
          pc := if am.tool_calls.isEmpty then .idle else .dispatching am.tool_calls }
  | .dispatching [] => { c with pc := .callingLLM }
  | .dispatching (tc :: rest) =>
      match execute_tool env c.fs tc.name tc.args with
      | .error _ => c
      | .ok (r, fs2) =>
          { c with
              messages := c.messages ++ [mkToolTurn tc r],
              fs := fs2,
              pc := if rest.isEmpty then .callingLLM else .dispatching rest }

/-- The `user_input` signal handler (`BaseAgentWorkflow.py`): overwrite the
pending query and file lists, rebuild the basename-to-path mapping, and
set the input flag.  It runs atomically whenever the workflow is suspended
at an await point. -/
def deliver (s : Signal) (c : Config) : Config :=
  { c with
      user_query := s.query,
      pptx_files := s.pptx_files,
      excel_files := s.excel_files,
      file_path_mapping := create_file_path_mapping s.pptx_files s.excel_files,
      user_input_received := true }

/-- The initial system-turn content set at the top of `run`. -/
def initText : String :=
  "You are an AI PowerPoint and Excel agent. You can view and modify PowerPoint slides and Excel sheets."

/-- Workflow state right after `run`'s initialization, waiting for the
first signal. -/
def initConfig (fs : FS) : Config :=
  { messages := [{ role := .system, content := initText }],
    pptx_files := [], excel_files := [], file_path_mapping := [],
    memory := ⟨[]⟩, user_input_received := false, user_query := "",
    fs := fs, pc := .idle }

/-- An interleaving action: one atomic workflow step, or the delivery of a
signal at the current suspension point. -/
inductive Act where
  | tick
  | sig (s : Signal)

/-- Run a schedule of interleaved steps and signal deliveries. -/
def reach (env : Env) (llm : List Turn → AssistantMsg) : Config → List Act → Config
  | c, [] => c
  | c, .tick :: rest => reach env llm (stepW env llm c) rest
  | c, .sig s :: rest => reach env llm (deliver s c) rest

/-- The `get_conversation_history` query: the current log. -/
def get_conversation_history (c : Config) : List Turn := c.messages

/-- Contents of the user turns of a log, in order. -/
def userContents (msgs : List Turn) : List String :=
  msgs.filterMap (fun t => if t.role = .user then some t.content else none)

/-- Content of turn 0, the empty string for an empty log. -/
def headContent (c : Config) : String :=
  (c.messages.head?.map Turn.content).getD ""

/-- Structural scan of a log: starting with a list of tool requests still
awaiting their tool turns, consume the log; each assistant turn with a
nonempty request list must be followed immediately by one tool turn per
request, carrying that request's id and name, in request order, before
anything else; any tool turn not consumed this way is rejected.  Returns
the requests still awaiting tool turns at the end of the log. -/
def logScan : List ToolCall → List Turn → Option (List ToolCall)
  | pending, [] => some pending
  | tc :: tcs, t :: rest =>
      if t.role = .tool ∧ t.tool_call_id = tc.id ∧ t.name = tc.name then
        logScan tcs rest
      else
        none
  | [], t :: rest =>
      match t.role with
      | .assistant => logScan t.tool_calls rest
      | .tool => none
      | _ => logScan [] rest

/-- The request ids a turn makes available for later back-references. -/
def idsOf (t : Turn) : List String :=
  if t.role = .assistant then t.tool_calls.map ToolCall.id else []

/-- Every tool turn's `tool_call_id` matches a request id emitted by some
earlier assistant turn (given the ids `avail` already in scope). -/
def backrefOK : List String → List Turn → Prop
  | _, [] => True
  | avail, t :: rest =>
      (t.role = .tool → t.tool_call_id ∈ avail) ∧ backrefOK (avail ++ idsOf t) rest

/-- Tool requests of the current assistant turn still awaiting their tool
turns at this program counter. -/
def pendingOf : PC → List ToolCall
  | .dispatching p => p
  | _ => []

/-- Turn 0 exists and has role `system`. -/
def headSys (c : Config) : Prop :=
  c.messages.head?.map Turn.role = some Role.system

/-- Turn 0 has role system and no other turn does. -/
def rolesOK (c : Config) : Prop :=
  headSys c ∧ ∀ t ∈ c.messages.tail, t.role ≠ Role.system

/-- Program counters of the inner reason/dispatch loop, i.e. after the
cycle's user turn has been appended and before the cycle completes. -/
def isInner : PC → Bool
  | .callingLLM => true
  | .dispatching _ => true
  | _ => false

/-- Mid-cycle state of the first signal's cycle: turn 0 is the system
turn, the orchestrator is inside the reason/dispatch loop, the input flag
has been consumed, and the only user turn so far is the first query. -/
def MidCycle (q1 : String) (c : Config) : Prop :=
  headSys c ∧ isInner c.pc = true ∧ c.user_input_received = false ∧
    userContents c.messages = [q1]

/-- Phases a run passes through after a second signal (query `q2`) is
delivered while the first signal's cycle (query `q1`) is mid-loop: the
first cycle finishes with the flag re-armed and `[q1]` the only user
content; then the second cycle's context refresh runs; then the second
query is appended as its own user turn, giving user contents `[q1, q2]`
with no interleaving and no further pending input. -/
def J (q1 q2 : String) (c : Config) : Prop :=
  headSys c ∧
  ((isInner c.pc = true ∧ c.user_input_received = true ∧ c.user_query = q2 ∧
      userContents c.messages = [q1]) ∨
   (c.pc = .idle ∧ c.user_input_received = true ∧ c.user_query = q2 ∧
      userContents c.messages = [q1]) ∨
   ((∃ px ex, c.pc = .snapshotting px ex) ∧ c.user_input_received = false ∧
      c.user_query = q2 ∧ userContents c.messages = [q1]) ∨
   ((isInner c.pc = true ∨ c.pc = .idle) ∧ c.user_input_received = false ∧
      userContents c.messages = [q1, q2]))

/-- `small` occurs as a contiguous substring of `big`. -/
def strContains (big small : String) : Prop :=
  ∃ p s, big.data = p ++ small.data ++ s

/-- Executable check: does `l` start with `s`? -/
def startsWithChars : List Char → List Char → Bool
  | _, [] => true
  | [], _ :: _ => false
  | a :: as, b :: bs => a == b && startsWithChars as bs

/-- Executable check: does `s` occur contiguously inside `l`? -/
def hasSubChars : List Char → List Char → Bool
  | [], small => small.isEmpty
  | a :: as, small => startsWithChars (a :: as) small || hasSubChars as small

/-- Reference value (spec wording, for the last-wins collision claim): the
snapshot entry a key ends up with is that of the document processed last —
Excel documents are processed after pptx documents, and within each list
later paths after earlier ones. -/
def snapshotValue (fs : FS) (pptx_files excel_files : List String) (k : String) :
    Option (List String) :=
  match (excel_files.filter (fun f => basename f == k)).getLast? with
  | some fe => some (excelEntry fs fe)
  | none => ((pptx_files.filter (fun f => basename f == k)).getLast?).map (pptxEntry fs)

/-- A slide with no shapes, used in concrete scenarios. -/
def slide0 : Slide := ⟨[]⟩

/-- Concrete filesystem: one readable single-slide deck. -/
def fs0 : FS :=
  { pptx := fun p => if p = "files/a.pptx" then .ok ⟨[slide0]⟩ else .error ("Package not found at " ++ p),
    xlsx := fun p => .error ("File " ++ p ++ " does not exist") }

/-- Concrete filesystem: one readable three-slide deck. -/
def fs3 : FS :=
  { pptx := fun p => if p = "files/d.pptx" then .ok ⟨[slide0, slide0, slide0]⟩ else .error ("Package not found at " ++ p),
    xlsx := fun p => .error ("File " ++ p ++ " does not exist") }

/-- Concrete filesystem with two readable decks whose paths share the
basename `a.pptx`: one slide under `x/`, two slides under `y/`. -/
def fs5 : FS :=
  { pptx := fun p =>
      if p = "x/a.pptx" then .ok ⟨[slide0]⟩
      else if p = "y/a.pptx" then .ok ⟨[slide0, slide0]⟩
      else .error ("Package not found at " ++ p),
    xlsx := fun p => .error ("File " ++ p ++ " does not exist") }

/-- Concrete filesystem for the Scenario A witness: `a.pptx` with three
slides. -/
def fsA : FS :=
  { pptx := fun p => if p = "a.pptx" then .ok ⟨[slide0, slide0, slide0]⟩ else .error ("Package not found at " ++ p),
    xlsx := fun p => .error ("File " ++ p ++ " does not exist") }

/-- Concrete external-call behaviour: `exec` of slide code appends one
slide to the deck (a mutation that changes the snapshot). -/
def env0 : Env :=
  { execSlideCode := fun _ prs _ => .ok (⟨prs.slides ++ [slide0]⟩, slide0),
    execDfCode := fun _ df => .ok df,
    dfMarkdown := fun _ => "| col |" }

/-- Concrete external-call behaviour whose `exec` of slide code raises. -/
def envBad : Env :=
  { execSlideCode := fun _ _ _ => .error ("name \x27shap\x27 is not defined"),
    execDfCode := fun _ df => .ok df,
    dfMarkdown := fun _ => "| col |" }

/-- Concrete reasoner that never requests tools. -/
def llm0 : List Turn → AssistantMsg := fun _ => ⟨"Here are the files.", []⟩

/-- Arguments of a concrete `modify_slide` request. -/
def argsModify : ToolArgs :=
  { file_path := some "files/a.pptx", slide_index := some 0, code := some "slide.shapes" }

/-- Concrete reasoner that requests one `modify_slide` call on its first
invocation (log length 2: system + user) and stops afterwards. -/
def llm1 : List Turn → AssistantMsg := fun msgs =>
  if msgs.length = 2 then ⟨"", [⟨"call_1", "modify_slide", argsModify⟩]⟩ else ⟨"Done.", []⟩

/-- Concrete signal of the mutating-tool scenario. -/
def sig1 : Signal := ⟨"add a slide", ["files/a.pptx"], []⟩

/-- Concrete signal of the Scenario A witness. -/
def sigA0 : Signal := ⟨"list files", ["a.pptx"], []⟩

/-- Concrete signal whose document basename contains a non-ASCII
character, which `json.dumps` renders as a `\uXXXX` escape. -/
def sigU : Signal := ⟨"list files", ["files/é.pptx"], []⟩

/-- First of two back-to-back signals. -/
def sigQ1 : Signal := ⟨"q1", [], []⟩

/-- Second of two back-to-back signals. -/
def sigQ2 : Signal := ⟨"q2", [], []⟩

/-- A concrete out-of-range `get_slide` request (slide 5 of a 3-slide deck). -/
def tcOutOfRange : ToolCall :=
  ⟨"call_4", "get_slide", { file_path := some "files/d.pptx", slide_index := some 5 }⟩

/-- Concrete workflow state awaiting dispatch of the out-of-range request. -/
def cfg4 : Config :=
  { initConfig fs3 with pc := .dispatching [tcOutOfRange] }

/-- Concrete mid-cycle workflow state of a first cycle for query `q1`:
inner loop, flag consumed, one user turn. -/
def cfgMid : Config :=
  { messages := [{ role := .system, content := initText }, { role := .user, content := "q1" }],
    pptx_files := [], excel_files := [], file_path_mapping := [],
    memory := ⟨[]⟩, user_input_received := false, user_query := "q1",
    fs := fs0, pc := .callingLLM }

theorem getLast?_cons_ne_nil {α} (a : α) (l : List α) (h : l ≠ []) :
    (a :: l).getLast? = l.getLast? := by
  cases l with
  | nil => exact absurd rfl h
  | cons b t => simp [List.getLast?_cons_cons]

theorem dictGet_dictSet {α} (m : List (String × α)) (k k2 : String) (v : α) :
    dictGet (dictSet m k v) k2 = if k = k2 then some v else dictGet m k2 := by
  induction m with
  | nil => simp [dictSet, dictGet]
  | cons e rest ih =>
      obtain ⟨k3, v3⟩ := e
      by_cases h3 : k3 = k
      · subst h3
        by_cases h2 : k3 = k2 <;> simp [dictSet, dictGet, h2]
      · by_cases h2 : k3 = k2
        · subst h2
          have : k ≠ k3 := fun h => h3 h.symm
          simp [dictSet, dictGet, h3, this]
        · simp [dictSet, dictGet, h3, h2, ih]

theorem dictGet_fold {α} (val : String → α) :
    ∀ (files : List String) (m0 : List (String × α)) (k : String),
      dictGet (files.foldl (fun m f => dictSet m (basename f) (val f)) m0) k =
        match (files.filter (fun f => basename f == k)).getLast? with
        | some f => some (val f)
        | none => dictGet m0 k := by
  intro files
  induction files with
  | nil => intro m0 k; simp
  | cons f rest ih =>
      intro m0 k
      have step : (f :: rest).foldl (fun m g => dictSet m (basename g) (val g)) m0
          = rest.foldl (fun m g => dictSet m (basename g) (val g)) (dictSet m0 (basename f) (val f)) := rfl
      rw [step, ih]
      by_cases hf : basename f = k
      · have hfc : (f :: rest).filter (fun g => basename g == k)
            = f :: rest.filter (fun g => basename g == k) := by
          simp [List.filter_cons, hf]
        cases hlast : (rest.filter (fun g => basename g == k)).getLast? with
        | some g =>
            have hne : rest.filter (fun g => basename g == k) ≠ [] := by
              intro hnil; rw [hnil] at hlast; simp at hlast
            rw [hfc, getLast?_cons_ne_nil f _ hne, hlast]
        | none =>
            have hnil : rest.filter (fun g => basename g == k) = [] := by
              cases hcase : rest.filter (fun g => basename g == k) with
              | nil => rfl
              | cons a t => rw [hcase] at hlast; simp [List.getLast?_concat] at hlast
            rw [hfc, hnil]
            simp [dictGet_dictSet, hf]
      · have hfc : (f :: rest).filter (fun g => basename g == k)
            = rest.filter (fun g => basename g == k) := by
          simp [List.filter_cons, hf]
        rw [hfc]
        cases hlast : (rest.filter (fun g => basename g == k)).getLast? with
        | some g => rfl
        | none => simp [dictGet_dictSet, hf]

theorem dictGet_mem {α} {m : List (String × α)} {k : String} {v : α}
    (h : dictGet m k = some v) : (k, v) ∈ m := by
  induction m with
  | nil => simp [dictGet] at h
  | cons e rest ih =>
      obtain ⟨k2, v2⟩ := e
      by_cases h2 : k2 = k
      · subst h2
        simp [dictGet] at h
        subst h
        exact List.mem_cons_self _ _
      · simp [dictGet, h2] at h
        exact List.mem_cons_of_mem _ (ih h)

theorem dictSet_mem {α} {m : List (String × α)} {k : String} {v : α} :
    ∀ e ∈ dictSet m k v, e ∈ m ∨ e = (k, v) := by
  induction m with
  | nil => intro e he; simp [dictSet] at he; right; exact he
  | cons p rest ih =>
      obtain ⟨k2, v2⟩ := p
      intro e he
      by_cases h2 : k2 = k
      · subst h2
        simp [dictSet] at he
        rcases he with he | he
        · right; simp [he]
        · left; exact List.mem_cons_of_mem _ he
      · simp [dictSet, h2] at he
        rcases he with he | he
        · left; simp [he]
        · rcases ih e he with h | h
          · left; exact List.mem_cons_of_mem _ h
          · right; exact h

theorem dictSet_keys_nodup {α} (m : List (String × α)) (k : String) (v : α)
    (h : (m.map Prod.fst).Nodup) : ((dictSet m k v).map Prod.fst).Nodup := by
  induction m with
  | nil => simp [dictSet]
  | cons p rest ih =>
      obtain ⟨k2, v2⟩ := p
      rw [List.map_cons, List.nodup_cons] at h
      obtain ⟨hk2, hrest⟩ := h
      by_cases h2 : k2 = k
      · subst h2
        have hd : dictSet ((k2, v2) :: rest) k2 v = (k2, v) :: rest := by
          simp [dictSet]
        rw [hd, List.map_cons, List.nodup_cons]
        exact ⟨hk2, hrest⟩
      · have hmemkeys : k2 ∉ (dictSet rest k v).map Prod.fst := by
          intro hmem
          rw [List.mem_map] at hmem
          obtain ⟨e, he, hfst⟩ := hmem
          rcases dictSet_mem e he with hin | heq
          · exact hk2 (List.mem_map.mpr ⟨e, hin, hfst⟩)
          · rw [heq] at hfst
            exact h2 hfst.symm
        simp only [dictSet, if_neg h2, List.map_cons, List.nodup_cons]
        exact ⟨hmemkeys, ih hrest⟩

theorem fold_keys_nodup {α} (val : String → α) :
    ∀ (files : List String) (m0 : List (String × α)),
      (m0.map Prod.fst).Nodup →
      ((files.foldl (fun m f => dictSet m (basename f) (val f)) m0).map Prod.fst).Nodup := by
  intro files
  induction files with
  | nil => intro m0 h; exact h
  | cons f rest ih =>
      intro m0 h
      exact ih _ (dictSet_keys_nodup _ _ _ h)

theorem fold_mem {α} (val : String → α) :
    ∀ (files : List String) (m0 : List (String × α)),
      ∀ e ∈ files.foldl (fun m f => dictSet m (basename f) (val f)) m0,
        e ∈ m0 ∨ ∃ f ∈ files, e = (basename f, val f) := by
  intro files
  induction files with
  | nil => intro m0 e he; left; exact he
  | cons f rest ih =>
      intro m0 e he
      rcases ih _ e he with h | h
      · rcases dictSet_mem e h with h2 | h2
        · left; exact h2
        · right; exact ⟨f, List.mem_cons_self _ _, h2⟩
      · obtain ⟨g, hg, hge⟩ := h
        right; exact ⟨g, List.mem_cons_of_mem _ hg, hge⟩

theorem snapshot_lookup (fs : FS) (pptx_files excel_files : List String) (k : String) :
    dictGet (create_memory_snapshot fs pptx_files excel_files).entries k
      = snapshotValue fs pptx_files excel_files k := by
  unfold create_memory_snapshot snapshotValue
  rw [dictGet_fold (excelEntry fs)]
  cases hx : (excel_files.filter (fun f => basename f == k)).getLast? with
  | some fe => rfl
  | none =>
      rw [dictGet_fold (pptxEntry fs)]
      cases hp : (pptx_files.filter (fun f => basename f == k)).getLast? with
      | some fp => rfl
      | none => rfl

theorem mapping_lookup (pptx_files excel_files : List String) (k : String) :
    dictGet (create_file_path_mapping pptx_files excel_files) k
      = ((pptx_files ++ excel_files).filter (fun f => basename f == k)).getLast? := by
  unfold create_file_path_mapping
  rw [dictGet_fold (fun f => f)]
  cases hl : (((pptx_files ++ excel_files)).filter (fun f => basename f == k)).getLast? with
  | some f => rfl
  | none => rfl

theorem snapshot_key_present (fs : FS) (pptx_files excel_files : List String)
    (f : String) (hf : f ∈ pptx_files ++ excel_files) :
    ∃ v, dictGet (create_memory_snapshot fs pptx_files excel_files).entries (basename f) = some v := by
  rw [snapshot_lookup]
  unfold snapshotValue
  rw [List.mem_append] at hf
  rcases hf with hp | he
  · cases hx : (excel_files.filter (fun g => basename g == basename f)).getLast? with
    | some fe => exact ⟨excelEntry fs fe, rfl⟩
    | none =>
        have hmem : f ∈ pptx_files.filter (fun g => basename g == basename f) :=
          List.mem_filter.mpr ⟨hp, by simp⟩
        have hne : pptx_files.filter (fun g => basename g == basename f) ≠ [] := by
          intro hnil; rw [hnil] at hmem; exact List.not_mem_nil f hmem
        cases hlast : (pptx_files.filter (fun g => basename g == basename f)).getLast? with
        | some fp => exact ⟨pptxEntry fs fp, by simp [hlast]⟩
        | none => exact absurd (List.getLast?_eq_none_iff.mp hlast) hne
  · have hmem : f ∈ excel_files.filter (fun g => basename g == basename f) :=
      List.mem_filter.mpr ⟨he, by simp⟩
    have hne : excel_files.filter (fun g => basename g == basename f) ≠ [] := by
      intro hnil; rw [hnil] at hmem; exact List.not_mem_nil f hmem
    cases hlast : (excel_files.filter (fun g => basename g == basename f)).getLast? with
    | some fe => exact ⟨excelEntry fs fe, by simp [hlast]⟩
    | none => exact absurd (List.getLast?_eq_none_iff.mp hlast) hne

theorem strContains_of_append_right (a b small : String)
    (h : strContains b small) : strContains (a ++ b) small := by
  obtain ⟨p, s, hd⟩ := h
  exact ⟨a.data ++ p, s, by rw [String.data_append, hd]; simp⟩

theorem strContains_of_append_left (a b small : String)
    (h : strContains a small) : strContains (a ++ b) small := by
  obtain ⟨p, s, hd⟩ := h
  exact ⟨p, s ++ b.data, by rw [String.data_append, hd]; simp⟩

theorem strContains_self (s : String) : strContains s s :=
  ⟨[], [], by simp⟩

theorem strContains_trans {big mid small : String}
    (h1 : strContains big mid) (h2 : strContains mid small) : strContains big small := by
  obtain ⟨p1, s1, hd1⟩ := h1
  obtain ⟨p2, s2, hd2⟩ := h2
  exact ⟨p1 ++ p2, s2 ++ s1, by rw [hd1, hd2]; simp⟩

theorem strContains_jsonQuote (k : String) (h : jsonEscape k = k) :
    strContains (jsonQuote k) k :=
  ⟨("\"" : String).data, ("\"" : String).data, by
    unfold jsonQuote; rw [h, String.data_append, String.data_append]⟩

theorem strContains_joinSep (sep : String) (g : α → String) :
    ∀ (l : List α) (x : α), x ∈ l → strContains (joinSep sep (l.map g)) (g x) := by
  intro l
  induction l with
  | nil => intro x hx; exact absurd hx (List.not_mem_nil x)
  | cons a rest ih =>
      intro x hx
      cases rest with
      | nil =>
          rw [List.mem_singleton] at hx
          subst hx
          exact strContains_self (g x)
      | cons b t =>
          rcases List.mem_cons.mp hx with hxa | hxr
          · subst hxa
            show strContains (g x ++ sep ++ joinSep sep ((b :: t).map g)) (g x)
            exact strContains_of_append_left _ _ _
              (strContains_of_append_left _ _ _ (strContains_self (g x)))
          · show strContains (g a ++ sep ++ joinSep sep ((b :: t).map g)) (g x)
            exact strContains_of_append_right _ _ _ (ih x hxr)

theorem startsWithChars_iff : ∀ (s l : List Char),
    startsWithChars l s = true ↔ ∃ t, l = s ++ t := by
  intro s
  induction s with
  | nil => intro l; simp [startsWithChars]
  | cons b bs ih =>
      intro l
      cases l with
      | nil => simp [startsWithChars]
      | cons a as =>
          rw [startsWithChars]
          constructor
          · intro h
            rw [Bool.and_eq_true, beq_iff_eq] at h
            obtain ⟨t, ht⟩ := (ih as).mp h.2
            exact ⟨t, by rw [h.1, ht]; rfl⟩
          · intro ⟨t, ht⟩
            rw [List.cons_append] at ht
            injection ht with h1 h2
            rw [Bool.and_eq_true, beq_iff_eq]
            exact ⟨h1, (ih as).mpr ⟨t, h2⟩⟩

theorem hasSubChars_iff : ∀ (l s : List Char),
    hasSubChars l s = true ↔ ∃ p t, l = p ++ s ++ t := by
  intro l
  induction l with
  | nil =>
      intro s
      rw [hasSubChars]
      constructor
      · intro h
        rw [List.isEmpty_iff] at h
        exact ⟨[], [], by simp [h]⟩
      · intro ⟨p, t, hpt⟩
        rw [List.isEmpty_iff]
        cases p with
        | nil =>
            cases s with
            | nil => rfl
            | cons x xs => simp at hpt
        | cons x xs => simp at hpt
  | cons a as ih =>
      intro s
      rw [hasSubChars, Bool.or_eq_true]
      constructor
      · intro h
        rcases h with h | h
        · obtain ⟨t, ht⟩ := (startsWithChars_iff s (a :: as)).mp h
          exact ⟨[], t, by simp [ht]⟩
        · obtain ⟨p, t, hpt⟩ := (ih s).mp h
          exact ⟨a :: p, t, by rw [hpt]; rfl⟩
      · intro ⟨p, t, hpt⟩
        cases p with
        | nil =>
            left
            exact (startsWithChars_iff s (a :: as)).mpr ⟨t, by simpa using hpt⟩
        | cons x xs =>
            right
            rw [List.cons_append, List.cons_append] at hpt
            injection hpt with h1 h2
            exact (ih s).mpr ⟨xs, t, h2⟩

theorem strContains_iff_hasSubChars (big small : String) :
    strContains big small ↔ hasSubChars big.data small.data = true := by
  rw [hasSubChars_iff]
  exact Iff.rfl

theorem userContents_append (xs ys : List Turn) :
    userContents (xs ++ ys) = userContents xs ++ userContents ys := by
  simp [userContents, List.filterMap_append]

theorem userContents_modifyHead_of_system {msgs : List Turn}
    (h : msgs.head?.map Turn.role = some Role.system) (x : String) :
    userContents (msgs.modifyHead (fun t => { t with content := x })) = userContents msgs := by
  cases msgs with
  | nil => rfl
  | cons t rest =>
      simp only [List.head?_cons, Option.map_some] at h
      have hrole : t.role = Role.system := by injection h
      simp [List.modifyHead, userContents, hrole]

theorem head_role_modifyHead (msgs : List Turn) (x : String) :
    ((msgs.modifyHead (fun t => { t with content := x })).head?.map Turn.role)
      = msgs.head?.map Turn.role := by
  cases msgs <;> simp [List.modifyHead]

theorem head_map_append {β : Type} {msgs : List Turn} (ts : List Turn) (f : Turn → β)
    (h : msgs ≠ []) : ((msgs ++ ts).head?.map f) = (msgs.head?.map f) := by
  cases msgs with
  | nil => exact absurd rfl h
  | cons a l => simp

theorem headSys_ne_nil {c : Config} (h : headSys c) : c.messages ≠ [] := by
  intro hnil
  unfold headSys at h
  rw [hnil] at h
  simp at h

theorem tail_append_of_ne_nil {msgs : List Turn} (ts : List Turn) (h : msgs ≠ []) :
    (msgs ++ ts).tail = msgs.tail ++ ts := by
  cases msgs with
  | nil => exact absurd rfl h
  | cons a l => simp

theorem tail_modifyHead (msgs : List Turn) (x : String) :
    (msgs.modifyHead (fun t => { t with content := x })).tail = msgs.tail := by
  cases msgs <;> simp [List.modifyHead]

theorem modifyHead_ne_nil {msgs : List Turn} (x : String) (h : msgs ≠ []) :
    msgs.modifyHead (fun t => { t with content := x }) ≠ [] := by
  cases msgs with
  | nil => exact absurd rfl h
  | cons a l => simp [List.modifyHead]

theorem logScan_append (ys : List Turn) :
    ∀ (xs : List Turn) (p : List ToolCall),
      logScan p (xs ++ ys) = (logScan p xs).bind (fun p2 => logScan p2 ys) := by
  intro xs
  induction xs with
  | nil => intro p; simp [logScan]
  | cons t rest ih =>
      intro p
      cases p with
      | nil =>
          cases hr : t.role with
          | assistant => simp [logScan, hr, ih]
          | tool => simp [logScan, hr]
          | system => simp [logScan, hr, ih]
          | user => simp [logScan, hr, ih]
      | cons tc tcs =>
          by_cases hcond : t.role = Role.tool ∧ t.tool_call_id = tc.id ∧ t.name = tc.name
          · simp [logScan, hcond, ih]
          · simp [logScan, hcond]

theorem logScan_modifyHead (msgs : List Turn) (p : List ToolCall) (x : String) :
    logScan p (msgs.modifyHead (fun t => { t with content := x })) = logScan p msgs := by
  cases msgs with
  | nil => rfl
  | cons t rest =>
      rw [List.modifyHead]
      cases p with
      | nil =>
          cases hr : t.role with
          | assistant => simp [logScan, hr]
          | tool => simp [logScan, hr]
          | system => simp [logScan, hr]
          | user => simp [logScan, hr]
      | cons tc tcs =>
          by_cases hcond : t.role = Role.tool ∧ t.tool_call_id = tc.id ∧ t.name = tc.name
          · simp [logScan, hcond]
          · simp [logScan, hcond]

theorem backref_of_logScan :
    ∀ (msgs : List Turn) (p : List ToolCall) (avail : List String),
      (∀ tc ∈ p, tc.id ∈ avail) → (logScan p msgs).isSome = true → backrefOK avail msgs := by
  intro msgs
  induction msgs with
  | nil => intro p avail _ _; trivial
  | cons t rest ih =>
      intro p avail hsub hscan
      cases p with
      | cons tc tcs =>
          by_cases hcond : t.role = Role.tool ∧ t.tool_call_id = tc.id ∧ t.name = tc.name
          · obtain ⟨hrole, hid, _⟩ := hcond
            refine ⟨fun _ => ?_, ?_⟩
            · rw [hid]
              exact hsub tc (List.mem_cons_self _ _)
            · have hscan2 : (logScan tcs rest).isSome = true := by
                simpa [logScan, hrole, hid, ‹t.name = tc.name›] using hscan
              refine ih tcs (avail ++ idsOf t) ?_ hscan2
              intro tc2 htc2
              exact List.mem_append.mpr (Or.inl (hsub tc2 (List.mem_cons_of_mem _ htc2)))
          · exfalso
            simp [logScan, hcond] at hscan
      | nil =>
          cases hr : t.role with
          | assistant =>
              refine ⟨fun hrt => ?_, ?_⟩
              · rw [hr] at hrt; exact absurd hrt (by simp)
              · have hscan2 : (logScan t.tool_calls rest).isSome = true := by
                  simpa [logScan, hr] using hscan
                refine ih t.tool_calls (avail ++ idsOf t) ?_ hscan2
                intro tc2 htc2
                refine List.mem_append.mpr (Or.inr ?_)
                simp [idsOf, hr]
                exact ⟨tc2, htc2, rfl⟩
          | tool =>
              exfalso
              simp [logScan, hr] at hscan
          | system =>
              refine ⟨fun hrt => ?_, ?_⟩
              · rw [hr] at hrt; exact absurd hrt (by simp)
              · have hscan2 : (logScan ([] : List ToolCall) rest).isSome = true := by
                  simpa [logScan, hr] using hscan
                exact ih [] (avail ++ idsOf t) (by simp) hscan2
          | user =>
              refine ⟨fun hrt => ?_, ?_⟩
              · rw [hr] at hrt; exact absurd hrt (by simp)
              · have hscan2 : (logScan ([] : List ToolCall) rest).isSome = true := by
                  simpa [logScan, hr] using hscan
                exact ih [] (avail ++ idsOf t) (by simp) hscan2

theorem reach_invariant (env : Env) (llm : List Turn → AssistantMsg)
    (P : Config → Prop)
    (hstep : ∀ c, P c → P (stepW env llm c))
    (hsig : ∀ s c, P c → P (deliver s c)) :
    ∀ (acts : List Act) (c : Config), P c → P (reach env llm c acts) := by
  intro acts
  induction acts with
  | nil => intro c h; exact h
  | cons a rest ih =>
      intro c h
      cases a with
      | tick => exact ih _ (hstep _ h)
      | sig s => exact ih _ (hsig s _ h)

theorem logScan_inv_step (env : Env) (llm : List Turn → AssistantMsg) (c : Config)
    (h : logScan [] c.messages = some (pendingOf c.pc)) :
    logScan [] (stepW env llm c).messages = some (pendingOf (stepW env llm c).pc) := by
  cases hpc : c.pc with
  | idle =>
      rw [hpc] at h
      by_cases hflag : c.user_input_received
      · simp [stepW, hpc, hflag, pendingOf]
        simpa [pendingOf] using h
      · simp [stepW, hpc, hflag, pendingOf]
        simpa [pendingOf] using h
  | snapshotting px ex =>
      rw [hpc] at h
      simp only [pendingOf] at h
      simp only [stepW, hpc]
      rw [logScan_append, logScan_modifyHead, h]
      simp [logScan, pendingOf]
  | callingLLM =>
      rw [hpc] at h
      simp only [pendingOf] at h
      simp only [stepW, hpc]
      rw [logScan_append, h]
      cases htc : (llm c.messages).tool_calls with
      | nil => simp [logScan, htc, pendingOf]
      | cons tc tcs => simp [logScan, htc, pendingOf]
  | dispatching pending =>
      rw [hpc] at h
      simp only [pendingOf] at h
      cases pending with
      | nil =>
          simp only [stepW, hpc]
          simpa [pendingOf] using h
      | cons tc rest =>
          simp only [stepW, hpc]
          cases hex : execute_tool env c.fs tc.name tc.args with
          | error e =>
              simp only [pendingOf]
              rw [hpc]
              simpa [pendingOf] using h
          | ok pr =>
              obtain ⟨r, fs2⟩ := pr
              simp only []
              rw [logScan_append, h]
              cases hrest : rest with
              | nil => simp [logScan, mkToolTurn, pendingOf]
              | cons tc2 tcs2 => simp [logScan, mkToolTurn, pendingOf]

theorem logScan_inv_sig (s : Signal) (c : Config)
    (h : logScan [] c.messages = some (pendingOf c.pc)) :
    logScan [] (deliver s c).messages = some (pendingOf (deliver s c).pc) := h

theorem rolesOK_step (env : Env) (llm : List Turn → AssistantMsg) (c : Config)
    (h : rolesOK c) : rolesOK (stepW env llm c) := by
  obtain ⟨hhead, htail⟩ := h
  have hne : c.messages ≠ [] := headSys_ne_nil hhead
  cases hpc : c.pc with
  | idle =>
      by_cases hflag : c.user_input_received <;> simp [stepW, hpc, hflag] <;>
        exact ⟨hhead, htail⟩
  | snapshotting px ex =>
      refine ⟨?_, ?_⟩
      · show headSys _
        unfold headSys
        simp only [stepW, hpc]
        rw [head_map_append _ _ (modifyHead_ne_nil _ hne), head_role_modifyHead]
        exact hhead
      · intro t ht
        simp only [stepW, hpc] at ht
        rw [tail_append_of_ne_nil _ (modifyHead_ne_nil _ hne), tail_modifyHead] at ht
        rcases List.mem_append.mp ht with hold | hnew
        · exact htail t hold
        · rw [List.mem_singleton] at hnew
          rw [hnew]
          simp
  | callingLLM =>
      refine ⟨?_, ?_⟩
      · show headSys _
        unfold headSys
        simp only [stepW, hpc]
        rw [head_map_append _ _ hne]
        exact hhead
      · intro t ht
        simp only [stepW, hpc] at ht
        rw [tail_append_of_ne_nil _ hne] at ht
        rcases List.mem_append.mp ht with hold | hnew
        · exact htail t hold
        · rw [List.mem_singleton] at hnew
          rw [hnew]
          simp
  | dispatching pending =>
      cases pending with
      | nil =>
          simp only [stepW, hpc]
          exact ⟨hhead, htail⟩
      | cons tc rest =>
          simp only [stepW, hpc]
          cases hex : execute_tool env c.fs tc.name tc.args with
          | error e => exact ⟨hhead, htail⟩
          | ok pr =>
              obtain ⟨r, fs2⟩ := pr
              refine ⟨?_, ?_⟩
              · show headSys _
                unfold headSys
                simp only []
                rw [head_map_append _ _ hne]
                exact hhead
              · intro t ht
                simp only [] at ht
                rw [tail_append_of_ne_nil _ hne] at ht
                rcases List.mem_append.mp ht with hold | hnew
                · exact htail t hold
                · rw [List.mem_singleton] at hnew
                  rw [hnew]
                  simp [mkToolTurn]

theorem rolesOK_sig (s : Signal) (c : Config) (h : rolesOK c) : rolesOK (deliver s c) := h

theorem systemContent_contains_key (mem : Memory) (mapping : List (String × String))
    {k : String} {v : List String} (hmem : (k, v) ∈ mem.entries) :
    strContains (systemContent mem mapping) (jsonQuote k) := by
  have hentries : strContains (renderMemoryEntries mem.entries) (jsonQuote k) := by
    cases hes : mem.entries with
    | nil => rw [hes] at hmem; exact absurd hmem (List.not_mem_nil _)
    | cons e rest =>
        rw [hes] at hmem
        have hjoin : strContains
            (joinSep ",\n" ((e :: rest).map
              (fun e2 => "    " ++ jsonQuote e2.1 ++ ": " ++ renderStrList "    " e2.2)))
            ("    " ++ jsonQuote (k, v).1 ++ ": " ++ renderStrList "    " (k, v).2) :=
          strContains_joinSep ",\n"
            (fun e2 : String × List String =>
              "    " ++ jsonQuote e2.1 ++ ": " ++ renderStrList "    " e2.2)
            (e :: rest) (k, v) hmem
        have helem : strContains ("    " ++ jsonQuote k ++ ": " ++ renderStrList "    " v)
            (jsonQuote k) :=
          strContains_of_append_left _ _ _ (strContains_of_append_left _ _ _
            (strContains_of_append_right _ _ _ (strContains_self _)))
        have hcontain := strContains_trans hjoin helem
        have hr : renderMemoryEntries (e :: rest)
            = "\x7b\n" ++ joinSep ",\n" ((e :: rest).map
                (fun e2 => "    " ++ jsonQuote e2.1 ++ ": " ++ renderStrList "    " e2.2))
              ++ "\n  \x7d" := rfl
        rw [hr]
        exact strContains_of_append_left _ _ _ (strContains_of_append_right _ _ _ hcontain)
  have hrm : strContains (renderMemory mem) (jsonQuote k) := by
    unfold renderMemory
    exact strContains_of_append_left _ _ _ (strContains_of_append_right _ _ _ hentries)
  unfold systemContent
  exact strContains_of_append_left _ _ _ (strContains_of_append_left _ _ _
    (strContains_of_append_left _ _ _ (strContains_of_append_right _ _ _ hrm)))

theorem iterate_invariant (env : Env) (llm : List Turn → AssistantMsg)
    (P : Config → Prop) (hstep : ∀ c, P c → P (stepW env llm c)) :
    ∀ (n : Nat) (c : Config), P c → P ((stepW env llm)^[n] c) := by
  intro n
  induction n with
  | zero => intro c h; exact h
  | succ n ih =>
      intro c h
      rw [Function.iterate_succ_apply']
      exact hstep _ (ih c h)

theorem J_step (env : Env) (llm : List Turn → AssistantMsg) (q1 q2 : String) (c : Config)
    (h : J q1 q2 c) : J q1 q2 (stepW env llm c) := by
  obtain ⟨hhead, hcase⟩ := h
  have hne : c.messages ≠ [] := headSys_ne_nil hhead
  cases hpc : c.pc with
  | idle =>
      rcases hcase with ⟨hin, _⟩ | ⟨_, hflag, hq, huc⟩ | ⟨⟨px, ex, hsnap⟩, _⟩ | ⟨hio, hflag, huc⟩
      · rw [hpc] at hin; simp [isInner] at hin
      · have hstep : stepW env llm c
            = { c with user_input_received := false,
                       pc := .snapshotting c.pptx_files c.excel_files } := by
          simp [stepW, hpc, hflag]
        rw [hstep]
        exact ⟨hhead, Or.inr (Or.inr (Or.inl
          ⟨⟨c.pptx_files, c.excel_files, rfl⟩, rfl, hq, huc⟩))⟩
      · rw [hpc] at hsnap; cases hsnap
      · rcases hio with hin | _
        · rw [hpc] at hin; simp [isInner] at hin
        · have hstep : stepW env llm c = c := by simp [stepW, hpc, hflag]
          rw [hstep]
          exact ⟨hhead, Or.inr (Or.inr (Or.inr ⟨Or.inr hpc, hflag, huc⟩))⟩
  | snapshotting px ex =>
      rcases hcase with ⟨hin, _⟩ | ⟨hidle, _⟩ | ⟨_, hflag, hq, huc⟩ | ⟨hio, hflag, huc⟩
      · rw [hpc] at hin; simp [isInner] at hin
      · rw [hpc] at hidle; cases hidle
      · constructor
        · show headSys _
          unfold headSys
          simp only [stepW, hpc]
          rw [head_map_append _ _ (modifyHead_ne_nil _ hne), head_role_modifyHead]
          exact hhead
        · refine Or.inr (Or.inr (Or.inr ⟨Or.inl ?_, ?_, ?_⟩))
          · simp [stepW, hpc, isInner]
          · simp only [stepW, hpc]
            exact hflag
          · simp only [stepW, hpc]
            rw [userContents_append, userContents_modifyHead_of_system hhead, huc]
            simp [userContents, hq]
      · rcases hio with hin | hidle
        · rw [hpc] at hin; simp [isInner] at hin
        · rw [hpc] at hidle; cases hidle
  | callingLLM =>
      have hucapp : userContents (stepW env llm c).messages = userContents c.messages := by
        simp only [stepW, hpc]
        rw [userContents_append]
        simp [userContents]
      have hheadStep : headSys (stepW env llm c) := by
        unfold headSys
        simp only [stepW, hpc]
        rw [head_map_append _ _ hne]
        exact hhead
      have hflagStep : (stepW env llm c).user_input_received = c.user_input_received := by
        simp [stepW, hpc]
      have hqStep : (stepW env llm c).user_query = c.user_query := by
        simp [stepW, hpc]
      have hpcStep : isInner (stepW env llm c).pc = true ∨ (stepW env llm c).pc = .idle := by
        simp only [stepW, hpc]
        cases htc : (llm c.messages).tool_calls with
        | nil => right; simp [htc]
        | cons a b => left; simp [htc, isInner]
      rcases hcase with ⟨_, hflag, hq, huc⟩ | ⟨hidle, _⟩ | ⟨⟨px, ex, hsnap⟩, _⟩ | ⟨_, hflag, huc⟩
      · rcases hpcStep with hin2 | hidle2
        · exact ⟨hheadStep, Or.inl ⟨hin2, by rw [hflagStep]; exact hflag,
            by rw [hqStep]; exact hq, by rw [hucapp]; exact huc⟩⟩
        · exact ⟨hheadStep, Or.inr (Or.inl ⟨hidle2, by rw [hflagStep]; exact hflag,
            by rw [hqStep]; exact hq, by rw [hucapp]; exact huc⟩)⟩
      · rw [hpc] at hidle; cases hidle
      · rw [hpc] at hsnap; cases hsnap
      · exact ⟨hheadStep, Or.inr (Or.inr (Or.inr ⟨hpcStep,
          by rw [hflagStep]; exact hflag, by rw [hucapp]; exact huc⟩))⟩
  | dispatching pending =>
      cases pending with
      | nil =>
          have hstep : stepW env llm c = { c with pc := .callingLLM } := by
            simp [stepW, hpc]
          rw [hstep]
          rcases hcase with ⟨_, hflag, hq, huc⟩ | ⟨hidle, _⟩ | ⟨⟨px, ex, hsnap⟩, _⟩ | ⟨_, hflag, huc⟩
          · exact ⟨hhead, Or.inl ⟨rfl, hflag, hq, huc⟩⟩
          · rw [hpc] at hidle; cases hidle
          · rw [hpc] at hsnap; cases hsnap
          · exact ⟨hhead, Or.inr (Or.inr (Or.inr ⟨Or.inl rfl, hflag, huc⟩))⟩
      | cons tc rest =>
          cases hex : execute_tool env c.fs tc.name tc.args with
          | error e =>
              have hstep : stepW env llm c = c := by simp [stepW, hpc, hex]
              rw [hstep]
              exact ⟨hhead, hcase⟩
          | ok pr =>
              obtain ⟨r, fs2⟩ := pr
              have hstep : stepW env llm c = { c with
                  messages := c.messages ++ [mkToolTurn tc r],
                  fs := fs2,
                  pc := if rest.isEmpty then .callingLLM else .dispatching rest } := by
                simp [stepW, hpc, hex]
              have hin2 : isInner (if rest.isEmpty then PC.callingLLM else PC.dispatching rest) = true := by
                cases rest <;> simp [isInner]
              have hucapp : userContents (c.messages ++ [mkToolTurn tc r]) = userContents c.messages := by
                rw [userContents_append]
                simp [userContents, mkToolTurn]
              have hhead2 : (c.messages ++ [mkToolTurn tc r]).head?.map Turn.role = some Role.system := by
                rw [head_map_append _ _ hne]; exact hhead
              rw [hstep]
              rcases hcase with ⟨_, hflag, hq, huc⟩ | ⟨hidle, _⟩ | ⟨⟨px, ex, hsnap⟩, _⟩ | ⟨_, hflag, huc⟩
              · exact ⟨hhead2, Or.inl ⟨hin2, hflag, hq, by rw [hucapp]; exact huc⟩⟩
              · rw [hpc] at hidle; cases hidle
              · rw [hpc] at hsnap; cases hsnap
              · exact ⟨hhead2, Or.inr (Or.inr (Or.inr ⟨Or.inl hin2, hflag,
                  by rw [hucapp]; exact huc⟩))⟩

theorem J_deliver (q1 : String) (s : Signal) (c : Config) (h : MidCycle q1 c) :
    J q1 s.query (deliver s c) := by
  obtain ⟨hhead, hin, _, huc⟩ := h
  exact ⟨hhead, Or.inl ⟨hin, rfl, rfl, huc⟩⟩

theorem headContent_inv_step (env : Env) (llm : List Turn → AssistantMsg)
    (target : String) (c : Config)
    (h : c.messages.head?.map Turn.content = some target ∧
         c.user_input_received = false ∧
         ∀ px ex, c.pc ≠ PC.snapshotting px ex) :
    (stepW env llm c).messages.head?.map Turn.content = some target ∧
    (stepW env llm c).user_input_received = false ∧
    ∀ px ex, (stepW env llm c).pc ≠ PC.snapshotting px ex := by
  obtain ⟨hhead, hflag, hpcn⟩ := h
  have hne : c.messages ≠ [] := by
    intro hnil; rw [hnil] at hhead; simp at hhead
  cases hpc : c.pc with
  | idle =>
      have hstep : stepW env llm c = c := by simp [stepW, hpc, hflag]
      rw [hstep]
      exact ⟨hhead, hflag, hpcn⟩
  | snapshotting px ex => exact absurd hpc (hpcn px ex)
  | callingLLM =>
      simp only [stepW, hpc]
      refine ⟨?_, hflag, ?_⟩
      · rw [head_map_append _ _ hne]; exact hhead
      · intro px ex
        cases htc : (llm c.messages).tool_calls with
        | nil => simp [htc]
        | cons a b => simp [htc]
  | dispatching pending =>
      cases pending with
      | nil =>
          have hstep : stepW env llm c = { c with pc := .callingLLM } := by
            simp [stepW, hpc]
          rw [hstep]
          exact ⟨hhead, hflag, by intro px ex h2; cases h2⟩
      | cons tc rest =>
          cases hex : execute_tool env c.fs tc.name tc.args with
          | error e =>
              have hstep : stepW env llm c = c := by simp [stepW, hpc, hex]
              rw [hstep]
              exact ⟨hhead, hflag, hpcn⟩
          | ok pr =>
              obtain ⟨r, fs2⟩ := pr
              have hstep : stepW env llm c = { c with
                  messages := c.messages ++ [mkToolTurn tc r],
                  fs := fs2,
                  pc := if rest.isEmpty then .callingLLM else .dispatching rest } := by
                simp [stepW, hpc, hex]
              rw [hstep]
              refine ⟨?_, hflag, ?_⟩
              · show ((c.messages ++ [mkToolTurn tc r]).head?.map Turn.content) = some target
                rw [head_map_append _ _ hne]; exact hhead
              · intro px ex
                cases rest <;> simp

/-- C6: for every schedule of workflow steps and signal deliveries, the log
satisfies the tool-turn block structure: scanning it consumes, for every
assistant turn with a nonempty tool-request list, exactly one tool turn
per request (matching id and name) immediately after it, in request order,
before anything else, leaving exactly the requests of the current
assistant turn that are still being dispatched; and every tool turn's
`tool_call_id` matches a request id emitted by some earlier assistant turn
in the same log.  At any point where no dispatch is in flight
(`pendingOf c.pc = []`, in particular whenever a cycle completes) the scan
result `some []` says the correspondence is complete. -/
theorem c6_tool_turn_structure (env : Env) (llm : List Turn → AssistantMsg) (fs : FS)
    (acts : List Act) :
    logScan [] (reach env llm (initConfig fs) acts).messages
      = some (pendingOf (reach env llm (initConfig fs) acts).pc) ∧
    backrefOK [] (reach env llm (initConfig fs) acts).messages := by
  have hinv : logScan [] (reach env llm (initConfig fs) acts).messages
      = some (pendingOf (reach env llm (initConfig fs) acts).pc) := by
    refine reach_invariant env llm
      (fun c => logScan [] c.messages = some (pendingOf c.pc))
      (logScan_inv_step env llm) logScan_inv_sig acts _ ?_
    rfl
  refine ⟨hinv, backref_of_logScan _ [] [] (by simp) ?_⟩
  rw [hinv]
  rfl

/-- C7 (amended): (a) under every schedule, turn 0 exists with role
`system` and no other turn has role `system`; (b) when a signal is
processed (its delivery followed by at least the two steps that consume
the flag and finish the context refresh, with no further delivery),
turn 0's content textually contains, for every document of the signal's
active set, the `json.dumps` rendering `jsonQuote (basename f)` of its
basename — whether or not extraction failed, since failed documents still
contribute their basename as the key of the error placeholder entry — and
therefore the raw basename itself whenever the basename contains no
character that `json.dumps` escapes (`jsonEscape` leaves it unchanged).
For basenames containing escaped characters (quotes, backslashes, control
or non-ASCII characters) only the escaped rendering appears; see the
counterexample. -/
theorem c7_system_turn (env : Env) (llm : List Turn → AssistantMsg) (fs : FS) :
    (∀ acts : List Act, rolesOK (reach env llm (initConfig fs) acts)) ∧
    (∀ (s : Signal) (n : Nat), 2 ≤ n → ∀ f ∈ s.pptx_files ++ s.excel_files,
        strContains (headContent ((stepW env llm)^[n] (deliver s (initConfig fs))))
          (jsonQuote (basename f)) ∧
        (jsonEscape (basename f) = basename f →
          strContains (headContent ((stepW env llm)^[n] (deliver s (initConfig fs))))
            (basename f))) := by
  constructor
  · intro acts
    refine reach_invariant env llm rolesOK (rolesOK_step env llm) rolesOK_sig acts _ ?_
    refine ⟨rfl, ?_⟩
    intro t ht
    simp [initConfig] at ht
  · intro s n hn f hf
    obtain ⟨m, hm⟩ := Nat.exists_eq_add_of_le hn
    subst hm
    rw [Nat.add_comm, Function.iterate_add_apply]
    have hc2 : (stepW env llm)^[2] (deliver s (initConfig fs))
        = stepW env llm (stepW env llm (deliver s (initConfig fs))) := rfl
    obtain ⟨v, hv⟩ := snapshot_key_present fs s.pptx_files s.excel_files f hf
    have hmem := dictGet_mem hv
    have hcontain : strContains
        (systemContent (create_memory_snapshot fs s.pptx_files s.excel_files)
          (create_file_path_mapping s.pptx_files s.excel_files))
        (jsonQuote (basename f)) :=
      systemContent_contains_key _ _ hmem
    have hstep1 : stepW env llm (deliver s (initConfig fs))
        = { deliver s (initConfig fs) with
              user_input_received := false,
              pc := .snapshotting s.pptx_files s.excel_files } := by
      simp [stepW, deliver, initConfig]
    have h2 : ((stepW env llm)^[2] (deliver s (initConfig fs))).messages.head?.map Turn.content
          = some (systemContent (create_memory_snapshot fs s.pptx_files s.excel_files)
              (create_file_path_mapping s.pptx_files s.excel_files)) ∧
        ((stepW env llm)^[2] (deliver s (initConfig fs))).user_input_received = false ∧
        ∀ px ex, ((stepW env llm)^[2] (deliver s (initConfig fs))).pc ≠ PC.snapshotting px ex := by
      rw [hc2, hstep1]
      refine ⟨?_, ?_, ?_⟩
      · simp [stepW, deliver, initConfig, List.modifyHead]
      · simp [stepW, deliver, initConfig]
      · intro px ex
        simp [stepW, deliver, initConfig]
    have hP := iterate_invariant env llm
      (fun c => c.messages.head?.map Turn.content
          = some (systemContent (create_memory_snapshot fs s.pptx_files s.excel_files)
              (create_file_path_mapping s.pptx_files s.excel_files)) ∧
        c.user_input_received = false ∧
        ∀ px ex, c.pc ≠ PC.snapshotting px ex)
      (headContent_inv_step env llm _) m _ h2
    have hhead := hP.1
    have hhc : headContent ((stepW env llm)^[m] ((stepW env llm)^[2] (deliver s (initConfig fs))))
        = systemContent (create_memory_snapshot fs s.pptx_files s.excel_files)
            (create_file_path_mapping s.pptx_files s.excel_files) := by
      unfold headContent
      rw [hhead]
      rfl
    rw [hhc]
    exact ⟨hcontain, fun hesc =>
      strContains_trans hcontain (strContains_jsonQuote _ hesc)⟩

/-- C5 (amended): the snapshot builder is a total function (per-document
failures become `["Error: <msg>"]` placeholder entries, never an
exception); each readable pptx document whose basename is not reused by a
later-processed document yields its `["Slide 1", ..]` entry, each Excel
document that is the last processed under its basename yields its
sheet-name (or placeholder) entry, and every entry of the result derives
from some input document; basename collisions keep only the
last-processed document's entry. -/
theorem c5_snapshot (fs : FS) (pptx_files excel_files : List String) :
    (∀ fp ∈ pptx_files,
        excel_files.filter (fun g => basename g == basename fp) = [] →
        (pptx_files.filter (fun g => basename g == basename fp)).getLast? = some fp →
        dictGet (create_memory_snapshot fs pptx_files excel_files).entries (basename fp)
          = some (pptxEntry fs fp)) ∧
    (∀ fe ∈ excel_files,
        (excel_files.filter (fun g => basename g == basename fe)).getLast? = some fe →
        dictGet (create_memory_snapshot fs pptx_files excel_files).entries (basename fe)
          = some (excelEntry fs fe)) ∧
    (∀ e ∈ (create_memory_snapshot fs pptx_files excel_files).entries,
        (∃ fp ∈ pptx_files, e = (basename fp, pptxEntry fs fp)) ∨
        (∃ fe ∈ excel_files, e = (basename fe, excelEntry fs fe))) := by
  refine ⟨?_, ?_, ?_⟩
  · intro fp _ hex hlast
    rw [snapshot_lookup]
    unfold snapshotValue
    rw [hex]
    simp [hlast]
  · intro fe _ hlast
    rw [snapshot_lookup]
    unfold snapshotValue
    simp [hlast]
  · intro e he
    unfold create_memory_snapshot at he
    rcases fold_mem (excelEntry fs) excel_files _ e he with hbase | ⟨g, hg, hge⟩
    · rcases fold_mem (pptxEntry fs) pptx_files [] e hbase with hnil | ⟨g, hg, hge⟩
      · exact absurd hnil (List.not_mem_nil e)
      · exact Or.inl ⟨g, hg, hge⟩
    · exact Or.inr ⟨g, hg, hge⟩

/-- C9: both the memory snapshot and the basename-to-path mapping have
duplicate-free keys, and the value a basename ends up with is exactly that
of the document processed last under that basename (`snapshotValue`: the
last colliding Excel path if any, else the last colliding pptx path;
for the mapping: the last colliding path of `pptx_files ++ excel_files`).
Earlier colliding documents therefore contribute no entry of their own. -/
theorem c9_basename_collision (fs : FS) (pptx_files excel_files : List String) (k : String) :
    dictGet (create_memory_snapshot fs pptx_files excel_files).entries k
      = snapshotValue fs pptx_files excel_files k ∧
    dictGet (create_file_path_mapping pptx_files excel_files) k
      = ((pptx_files ++ excel_files).filter (fun f => basename f == k)).getLast? ∧
    ((create_memory_snapshot fs pptx_files excel_files).entries.map Prod.fst).Nodup ∧
    ((create_file_path_mapping pptx_files excel_files).map Prod.fst).Nodup := by
  refine ⟨snapshot_lookup fs pptx_files excel_files k,
    mapping_lookup pptx_files excel_files k, ?_, ?_⟩
  · unfold create_memory_snapshot
    exact fold_keys_nodup (excelEntry fs) excel_files _
      (fold_keys_nodup (pptxEntry fs) pptx_files [] (by simp))
  · unfold create_file_path_mapping
    exact fold_keys_nodup (fun f => f) (pptx_files ++ excel_files) [] (by simp)

/-- C3: for every tool name outside the fixed four-entry catalog and
arbitrary arguments, the dispatcher returns exactly the string
`"Unknown tool: <name>"` and raises no exception (the result is `.ok` and
the filesystem is untouched). -/
theorem c3_unknown_tool (env : Env) (fs : FS) (tool_name : String) (tool_args : ToolArgs)
    (h1 : tool_name ≠ "get_slide") (h2 : tool_name ≠ "get_excel_data")
    (h3 : tool_name ≠ "modify_slide") (h4 : tool_name ≠ "modify_excel") :
    execute_tool env fs tool_name tool_args = .ok ("Unknown tool: " ++ tool_name, fs) := by
  simp [execute_tool, h1, h2, h3, h4]

/-- C3 witness: the unknown tool name `"delete_file"` of Scenario D. -/
theorem c3_unknown_tool_witness :
    execute_tool env0 fs0 "delete_file" {} = .ok ("Unknown tool: delete_file", fs0) :=
  c3_unknown_tool env0 fs0 "delete_file" {} (by decide) (by decide) (by decide) (by decide)

/-- C10: when `modify_slide` is invoked on a readable presentation with an
in-range index and the `exec` of the code payload raises, the activity
returns `"Error: <message>"` followed by the attempted code, and the
filesystem is returned unchanged — the `prs.save` step is never reached. -/
theorem c10_modify_slide_error (env : Env) (fs : FS) (prs : PptxFile)
    (fp code msg : String) (idx : Int)
    (hread : fs.pptx fp = .ok prs)
    (hin : 0 ≤ idx ∧ idx < (prs.slides.length : Int))
    (hexec : env.execSlideCode code prs idx.toNat = .error msg) :
    modify_slide env fs fp idx code
      = ("Error: " ++ msg ++ "\n\nCode attempted to execute:\n" ++ code, fs) := by
  unfold modify_slide
  rw [hread]
  simp [hin, hexec, codeTail, String.append_assoc]

/-- C10 witness: a failing code payload on the concrete one-slide deck. -/
theorem c10_modify_slide_error_witness :
    modify_slide envBad fs0 "files/a.pptx" 0 "shap.title"
      = ("Error: name \x27shap\x27 is not defined\n\nCode attempted to execute:\nshap.title", fs0) :=
  c10_modify_slide_error envBad fs0 ⟨[slide0]⟩ "files/a.pptx" "shap.title"
    ("name \x27shap\x27 is not defined") 0 rfl (by decide) rfl

/-- C2 (amended): the handler applies a second signal immediately
(overwriting the pending query and re-arming the flag, never queueing);
but when the second signal arrives after the first cycle has appended its
user turn (any inner-loop suspension point), the run stays within the `J`
phases: the first cycle finishes with `[q1]` the only user content, only
then does the second cycle run its refresh and append the second query as
its own user turn, reaching user contents `[q1, q2]` — both queries
processed, in order, with no interleaved user turns. -/
theorem c2_second_signal_held (env : Env) (llm : List Turn → AssistantMsg)
    (q1 : String) (s : Signal) (c : Config) (h : MidCycle q1 c) :
    ∀ n, J q1 s.query ((stepW env llm)^[n] (deliver s c)) := by
  intro n
  exact iterate_invariant env llm (J q1 s.query)
    (fun d hd => J_step env llm q1 s.query d hd) n _ (J_deliver q1 s c h)

/-- C2 amended witness: a concrete mid-cycle state, second signal `q2`,
three further steps. -/
theorem c2_second_signal_held_witness :
    J "q1" "q2" ((stepW env0 llm0)^[3] (deliver sigQ2 cfgMid)) :=
  c2_second_signal_held env0 llm0 "q1" sigQ2 cfgMid
    (by refine ⟨rfl, rfl, rfl, ?_⟩; decide) 3

/-- C8 (amended): two query-interface calls with no intervening signal
*and no intervening orchestrator step* return identical logs; in
particular an idle instance with no pending input makes no step at all, so
any number of scheduler steps leaves the log (and the whole state)
unchanged. -/
theorem c8_idempotent_when_idle (env : Env) (llm : List Turn → AssistantMsg) (c : Config)
    (h1 : c.pc = PC.idle) (h2 : c.user_input_received = false) :
    ∀ n, get_conversation_history ((stepW env llm)^[n] c) = get_conversation_history c := by
  have hfix : stepW env llm c = c := by simp [stepW, h1, h2]
  intro n
  rw [Function.iterate_fixed hfix n]

/-- C8 amended witness: the freshly initialized idle instance. -/
theorem c8_idempotent_when_idle_witness :
    get_conversation_history ((stepW env0 llm0)^[3] (initConfig fs0))
      = get_conversation_history (initConfig fs0) :=
  c8_idempotent_when_idle env0 llm0 (initConfig fs0) rfl rfl 3

/-- C4: for a readable deck and an out-of-range slide index, the
slide-inspection tool returns exactly
`"Error: Slide index <index> out of range."`, and dispatching such a
request appends that string as the tool turn and moves the loop back to
the reasoning step (`callingLLM`) instead of aborting. -/
theorem c4_out_of_range (env : Env) (llm : List Turn → AssistantMsg)
    (fs : FS) (prs : PptxFile) (fp : String) (idx : Int) (tcid : String) (c : Config)
    (hread : fs.pptx fp = .ok prs)
    (hout : ¬ (0 ≤ idx ∧ idx < (prs.slides.length : Int)))
    (hpc : c.pc = .dispatching
      [⟨tcid, "get_slide", { file_path := some fp, slide_index := some idx }⟩])
    (hfs : c.fs = fs) :
    get_slide_xml fs fp idx = "Error: Slide index " ++ toString idx ++ " out of range." ∧
    (stepW env llm c).messages = c.messages ++
      [mkToolTurn ⟨tcid, "get_slide", { file_path := some fp, slide_index := some idx }⟩
        ("Error: Slide index " ++ toString idx ++ " out of range.")] ∧
    (stepW env llm c).pc = .callingLLM := by
  have herr : get_slide_xml fs fp idx
      = "Error: Slide index " ++ toString idx ++ " out of range." := by
    simp [get_slide_xml, hread, hout]
  have herr2 : get_slide_xml c.fs fp idx
      = "Error: Slide index " ++ toString idx ++ " out of range." := by
    rw [hfs]; exact herr
  have hexec : execute_tool env c.fs "get_slide"
      { file_path := some fp, slide_index := some idx }
      = .ok ("Error: Slide index " ++ toString idx ++ " out of range.", c.fs) := by
    simp [execute_tool, herr2]
  refine ⟨herr, ?_, ?_⟩
  · simp [stepW, hpc, hexec]
  · simp [stepW, hpc, hexec]

/-- C4 witness: Scenario B — slide index 5 on the concrete 3-slide deck. -/
theorem c4_out_of_range_witness :
    get_slide_xml fs3 "files/d.pptx" 5 = "Error: Slide index 5 out of range." ∧
    (stepW env0 llm0 cfg4).pc = .callingLLM :=
  ⟨(c4_out_of_range env0 llm0 fs3 ⟨[slide0, slide0, slide0]⟩ "files/d.pptx" 5 "call_4" cfg4
      rfl (by decide) rfl rfl).1,
   (c4_out_of_range env0 llm0 fs3 ⟨[slide0, slide0, slide0]⟩ "files/d.pptx" 5 "call_4" cfg4
      rfl (by decide) rfl rfl).2.2⟩

/-- C1 evidence: in `BaseAgentWorkflow.run`, after a cycle in which the
reasoner requests one `modify_slide` call that mutates the deck (adding a
slide), the turn appended last is the `modify_slide` tool turn, yet turn 0
still carries the content rendered from the pre-mutation snapshot and does
not equal the content a rebuilt post-mutation snapshot would give: the
dispatch loop never re-runs `create_memory_snapshot`. -/
theorem c1_stale_snapshot_after_mutation :
    ((reach env0 llm1 (initConfig fs0) [.sig sig1, .tick, .tick, .tick, .tick]).messages.getLast?.map
        Turn.name) = some "modify_slide" ∧
    headContent (reach env0 llm1 (initConfig fs0) [.sig sig1, .tick, .tick, .tick, .tick])
      = systemContent (create_memory_snapshot fs0 ["files/a.pptx"] [])
          (create_file_path_mapping ["files/a.pptx"] []) ∧
    headContent (reach env0 llm1 (initConfig fs0) [.sig sig1, .tick, .tick, .tick, .tick])
      ≠ systemContent
          (create_memory_snapshot
            (reach env0 llm1 (initConfig fs0) [.sig sig1, .tick, .tick, .tick, .tick]).fs
            (reach env0 llm1 (initConfig fs0) [.sig sig1, .tick, .tick, .tick, .tick]).pptx_files
            (reach env0 llm1 (initConfig fs0) [.sig sig1, .tick, .tick, .tick, .tick]).excel_files)
          (reach env0 llm1 (initConfig fs0) [.sig sig1, .tick, .tick, .tick, .tick]).file_path_mapping := by
  refine ⟨by decide, by decide, by decide⟩

/-- C2 counterexample: two signals (`q1` then `q2`), the second delivered
while the first cycle awaits its snapshot activity (mid-cycle, before the
first user turn is appended).  The handler overwrites the pending query,
so the run appends `q2` twice and `q1` is never processed — an
acknowledged signal is lost, refuting the claim as stated. -/
theorem c2_lost_signal_counterexample :
    userContents (reach env0 llm0 (initConfig fs0)
        [.sig sigQ1, .tick, .sig sigQ2, .tick, .tick, .tick, .tick, .tick]).messages
      = ["q2", "q2"] ∧
    "q1" ∉ userContents (reach env0 llm0 (initConfig fs0)
        [.sig sigQ1, .tick, .sig sigQ2, .tick, .tick, .tick, .tick, .tick]).messages := by
  refine ⟨by decide, by decide⟩

/-- C5 counterexample: two readable decks `x/a.pptx` (1 slide) and
`y/a.pptx` (2 slides) share the basename `a.pptx`; the snapshot's only
entry for `a.pptx` is the later deck's, so the readable 1-slide deck does
not yield its `["Slide 1"]` entry — the claim's universal per-document
guarantee fails on basename collisions. -/
theorem c5_collision_counterexample :
    pptxEntry fs5 "x/a.pptx" = ["Slide 1"] ∧
    (create_memory_snapshot fs5 ["x/a.pptx", "y/a.pptx"] []).entries
      = [("a.pptx", ["Slide 1", "Slide 2"])] ∧
    dictGet (create_memory_snapshot fs5 ["x/a.pptx", "y/a.pptx"] []).entries "a.pptx"
      ≠ some ["Slide 1"] := by
  refine ⟨by decide, by decide, by decide⟩

/-- C5 amended witness: Scenario A — `a.pptx` with three slides yields the
entry `a.pptx → ["Slide 1", "Slide 2", "Slide 3"]`. -/
theorem c5_snapshot_witness :
    dictGet (create_memory_snapshot fsA ["a.pptx"] []).entries (basename "a.pptx")
      = some (pptxEntry fsA "a.pptx") ∧
    pptxEntry fsA "a.pptx" = ["Slide 1", "Slide 2", "Slide 3"] :=
  ⟨(c5_snapshot fsA ["a.pptx"] []).1 "a.pptx" (by decide) (by decide) (by decide), by decide⟩

/-- C8 counterexample: with the first cycle mid-loop, one more
orchestrator step (the reasoner call completing) appends an assistant
turn, so two query-interface reads separated by that step — with no
intervening signal — return different logs. -/
theorem c8_counterexample :
    get_conversation_history
        (stepW env0 llm0 (reach env0 llm0 (initConfig fs0) [.sig sigQ1, .tick, .tick]))
      ≠ get_conversation_history (reach env0 llm0 (initConfig fs0) [.sig sigQ1, .tick, .tick]) := by
  decide

/-- C7 witness: concrete schedule and signal with one pptx document whose
basename is escape-free, so turn 0 contains both its JSON rendering and
the raw basename. -/
theorem c7_system_turn_witness :
    rolesOK (reach env0 llm0 (initConfig fs0) []) ∧
    strContains (headContent ((stepW env0 llm0)^[2] (deliver sigA0 (initConfig fs0))))
      (basename "a.pptx") :=
  ⟨(c7_system_turn env0 llm0 fs0).1 [],
   ((c7_system_turn env0 llm0 fs0).2 sigA0 2 (by decide) "a.pptx" (by decide)).2 (by decide)⟩

/-- C7 counterexample: a document whose basename `é.pptx` contains a
non-ASCII character.  `json.dumps` (default `ensure_ascii=True`) renders
the key with a unicode escape (u00e9) in place of the raw character, so
after the signal is processed turn 0's
content does not textually contain the raw basename — the claim's
universal containment fails, even though the escaped rendering is
present. -/
theorem c7_escape_counterexample :
    ¬ strContains (headContent ((stepW env0 llm0)^[2] (deliver sigU (initConfig fs0))))
      (basename "files/é.pptx") := by
  rw [strContains_iff_hasSubChars]
  decide
